import Mathlib

/-!
Verification of the sinker registry-path parser and Docker stream consumer.

Go strings are modelled as `List Char`; the Go standard-library string
operations used by the source (`strings.Contains`, `strings.Split`,
`strings.ReplaceAll`, `strings.TrimLeft` with a single-character cut set)
are implemented below with the semantics documented for the Go library.
-/

/-- A Go string, modelled as a list of characters. -/
abbrev GoStr := List Char

/-- Convert a Lean string literal to the `GoStr` model. -/
def str (s : String) : GoStr := s.data

/-- `hasPfx pat s` is true when `pat` occurs at the start of `s`. -/
def hasPfx : GoStr → GoStr → Bool
  | [], _ => true
  | _ :: _, [] => false
  | a :: as, b :: bs => a == b && hasPfx as bs

/-- Go `strings.Contains(s, pat)`: substring occurrence test. -/
def containsSub : GoStr → GoStr → Bool
  | [], pat => hasPfx pat []
  | c :: rest, pat => hasPfx pat (c :: rest) || containsSub rest pat

/-- Go `strings.Split(s, sep)` for a one-character separator. -/
def splitChar (sep : Char) : GoStr → List GoStr
  | [] => [[]]
  | c :: rest =>
    if c == sep then [] :: splitChar sep rest
    else
      match splitChar sep rest with
      | [] => [[c]]
      | t :: ts => (c :: t) :: ts

/-- Scanner for Go `strings.ReplaceAll` with a non-empty pattern:
non-overlapping occurrences are replaced left to right.  `skip` counts
characters of an already-replaced occurrence that remain to be consumed. -/
def rAll (pat rep : GoStr) : GoStr → Nat → GoStr
  | [], _ => []
  | _ :: rest, skip + 1 => rAll pat rep rest skip
  | c :: rest, 0 =>
    if hasPfx pat (c :: rest) then rep ++ rAll pat rep rest (pat.length - 1)
    else c :: rAll pat rep rest 0

/-- Go `strings.ReplaceAll` for a non-empty pattern. -/
def replaceAllNE (pat rep s : GoStr) : GoStr := rAll pat rep s 0

/-- Go `strings.ReplaceAll(s, pat, rep)`.  An empty pattern matches at the
start of the string and after every character. -/
def goReplaceAll (s pat rep : GoStr) : GoStr :=
  match pat with
  | [] => rep ++ s.foldr (fun c acc => c :: (rep ++ acc)) []
  | _ :: _ => replaceAllNE pat rep s

/-- Go `strings.TrimLeft(s, cut)` for a one-character cut set. -/
def trimLeftChar (cut : Char) : GoStr → GoStr
  | [] => []
  | c :: rest => if c == cut then trimLeftChar cut rest else c :: rest

/-- `RegistryPath` is a registry path for a docker image (an opaque string). -/
abbrev RegistryPath := GoStr

/-- `Digest` is the digest in the registry path, if one exists.
Translated from `RegistryPath.Digest` in the source. -/
def RegistryPath.Digest (r : RegistryPath) : GoStr :=
  if !containsSub r ['@'] then []
  else (splitChar '@' r).getD 1 []

/-- `Tag` is the tag in the registry path, if one exists.
Translated from `RegistryPath.Tag` in the source. -/
def RegistryPath.Tag (r : RegistryPath) : GoStr :=
  if containsSub r ['@'] || !containsSub r [':'] then []
  else (splitChar ':' r).getD 1 []

/-- `Host` is the host in the registry path.
Translated from `RegistryPath.Host` in the source: the tag suffix is
stripped (by replace-all of `":" + Tag`), the `.` test is performed on the
whole stripped string, and the result is the first `/`-segment of the
original string. -/
def RegistryPath.Host (r : RegistryPath) : GoStr :=
  let host := if RegistryPath.Tag r ≠ [] then goReplaceAll r (':' :: RegistryPath.Tag r) [] else r
  if !containsSub host ['.'] then []
  else (splitChar '/' r).getD 0 []

/-- `Repository` is the repository in the registry path.
Translated from `RegistryPath.Repository` in the source: replace-all of the
tag suffix, then of the digest suffix, then of the host, then a left trim
of `/`. -/
def RegistryPath.Repository (r : RegistryPath) : GoStr :=
  let repository := if RegistryPath.Tag r ≠ [] then goReplaceAll r (':' :: RegistryPath.Tag r) [] else r
  let repository := if RegistryPath.Digest r ≠ [] then goReplaceAll repository ('@' :: RegistryPath.Digest r) [] else repository
  let repository := if RegistryPath.Host r ≠ [] then goReplaceAll repository (RegistryPath.Host r) [] else repository
  trimLeftChar '/' repository


/-- `ProgressDetail` is the current state of pushing or pulling an image
(in bytes).  Go `int` is modelled as `Int`. -/
structure ProgressDetail where
  Current : Int
  Total : Int
deriving DecidableEq

/-- `Status` is the status output from the Docker client. -/
structure Status where
  Message : GoStr
  ID : GoStr
  progressDetail : ProgressDetail
deriving DecidableEq

/-- `GetMessage` returns a human friendly message from parsing the status
message.  Translated from `Status.GetMessage` in the source; `%v` on a Go
`int` is decimal formatting. -/
def Status.GetMessage (s : Status) : GoStr :=
  if containsSub s.Message (str "Pulling from") || containsSub s.Message (str "The push refers to") then
    str "Started"
  else if s.progressDetail.Total > 0 then
    str "Processing " ++ (toString s.progressDetail.Current).data ++ str "B of "
      ++ (toString s.progressDetail.Total).data ++ str "B"
  else
    str "Processing"

/-- One JSON object line of the stream, abstracted to the fields the two
decoders of `waitForScannerComplete` read.  `none` means the key is absent
from the line (Go `json.Unmarshal` then leaves the struct field untouched);
`some v` means the key is present with value `v`. -/
structure JsonStatusLine where
  status : Option GoStr
  id : Option GoStr
  pdCurrent : Option Int
  pdTotal : Option Int
  error : Option GoStr
deriving DecidableEq

/-- One line handed to the consumer by the scanner: either it decodes into
both struct shapes, or `json.Unmarshal` into `Status` fails with message
`e`, or the unmarshal into `Status` succeeds (with fields `l`) and the
unmarshal into the error shape fails with message `e`. -/
inductive ScanLine where
  | ok (l : JsonStatusLine)
  | badStatus (e : GoStr)
  | badError (l : JsonStatusLine) (e : GoStr)
deriving DecidableEq

/-- Go `json.Unmarshal` of one line into the (reused) `Status` struct:
fields present in the line are overwritten, absent fields keep their
previous values. -/
def applyStatus (st : Status) (l : JsonStatusLine) : Status :=
  { Message := l.status.getD st.Message
    ID := l.id.getD st.ID
    progressDetail :=
      { Current := l.pdCurrent.getD st.progressDetail.Current
        Total := l.pdTotal.getD st.progressDetail.Total } }

/-- Go `json.Unmarshal` of one line into the (reused) `clientErrorMessage`
struct. -/
def applyError (em : GoStr) (l : JsonStatusLine) : GoStr := l.error.getD em

/-- The zero value of the Go `Status` struct. -/
def zeroStatus : Status := ⟨[], [], ⟨0, 0⟩⟩

/-- The line logged by `logger.Printf("[%s] %s (%s)", command, image, msg)`. -/
def progressLine (command image msg : GoStr) : GoStr :=
  (str "[" ++ command ++ str "] " ++ image ++ str " (" ++ msg) ++ [')']

/-- The line logged by `logger.Printf("[%s] %s complete.", command, image)`. -/
def completeLine (command image : GoStr) : GoStr :=
  (str "[" ++ command ++ str "] " ++ image ++ str " complete") ++ ['.']

/-- Result of a `waitForScannerComplete` run: the log lines written to the
logger, and the returned error (`none` is Go `nil`). -/
structure WaitResult where
  logs : List GoStr
  err : Option GoStr
deriving DecidableEq

/-- The scan loop of `waitForScannerComplete`, one step per scanner line.
`status`, `errMsg` and `scans` are the variables declared outside the loop;
`scanErr` is the value of `clientScanner.Err()` once scanning stops. -/
def waitLoop (command image : GoStr) :
    List ScanLine → Status → GoStr → Nat → List GoStr → Option GoStr → WaitResult
  | [], _, _, _, logs, scanErr =>
    match scanErr with
    | some e => ⟨logs, some (str "scanner: " ++ e)⟩
    | none => ⟨logs ++ [completeLine command image], none⟩
  | ScanLine.badStatus e :: _, _, _, _, logs, _ =>
    ⟨logs, some (str "unmarshal status: " ++ e)⟩
  | ScanLine.badError _ e :: _, _, _, _, logs, _ =>
    ⟨logs, some (str "unmarshal error: " ++ e)⟩
  | ScanLine.ok l :: rest, status, errMsg, scans, logs, scanErr =>
    let status := applyStatus status l
    let errMsg := applyError errMsg l
    if errMsg ≠ [] then ⟨logs, some (str "returned error: " ++ errMsg)⟩
    else
      let logs :=
        if scans % 25 == 0 then logs ++ [progressLine command image (Status.GetMessage status)]
        else logs
      waitLoop command image rest status errMsg (scans + 1) logs scanErr

/-- `waitForScannerComplete`, modelled over the sequence of lines the
scanner yields and the terminal `clientScanner.Err()` value. -/
def waitForScannerComplete (command image : GoStr) (lines : List ScanLine)
    (scanErr : Option GoStr) : WaitResult :=
  waitLoop command image lines zeroStatus [] 0 [] scanErr

/-- The progress log lines emitted for a run of decodable, error-free
lines, starting from status `st` and line counter `scans`. -/
def progressLogs (command image : GoStr) :
    List JsonStatusLine → Status → Nat → List GoStr
  | [], _, _ => []
  | l :: rest, st, scans =>
    let st := applyStatus st l
    (if scans % 25 == 0 then [progressLine command image (Status.GetMessage st)] else [])
      ++ progressLogs command image rest st (scans + 1)

/-- Constraints on an explicit registry host under the spec grammar
`[host[:port]/]repository[:tag][@digest]` with the `host:port` form
excluded: nonempty, contains a `.`, and contains none of the three
separators. -/
abbrev hostOK (h : GoStr) : Prop :=
  h ≠ [] ∧ '.' ∈ h ∧ '/' ∉ h ∧ ':' ∉ h ∧ '@' ∉ h

/-- Constraints on a repository component: nonempty, free of `:` and `@`,
and not beginning with `/`. -/
abbrev repoOK (rep : GoStr) : Prop :=
  rep ≠ [] ∧ ':' ∉ rep ∧ '@' ∉ rep ∧ hasPfx ['/'] rep = false

/-- Constraints on a tag component: nonempty and free of `:` and `@`. -/
abbrev tagOK (t : GoStr) : Prop := t ≠ [] ∧ ':' ∉ t ∧ '@' ∉ t

/-- Constraints on a digest component: nonempty and free of `@`. -/
abbrev digestOK (d : GoStr) : Prop := d ≠ [] ∧ '@' ∉ d

/-- A well-formed registry path under the spec grammar
`[host[:port]/]repository[:tag][@digest]`, excluding the ambiguous
`host:port` form, with tag and digest mutually exclusive, the host (when
present) not recurring inside the repository, and — when no host is
present — no `.` in the remaining non-tag components (a `.` is what the
parser uses to recognise a host). -/
def WellFormed (p : RegistryPath) : Prop :=
  (∃ rep, repoOK rep ∧ '.' ∉ rep ∧ p = rep) ∨
  (∃ h rep, hostOK h ∧ repoOK rep ∧ containsSub rep h = false ∧ p = h ++ '/' :: rep) ∨
  (∃ rep t, repoOK rep ∧ tagOK t ∧ '.' ∉ rep ∧ p = rep ++ ':' :: t) ∨
  (∃ h rep t, hostOK h ∧ repoOK rep ∧ tagOK t ∧ containsSub rep h = false ∧
    p = h ++ '/' :: (rep ++ ':' :: t)) ∨
  (∃ rep d, repoOK rep ∧ digestOK d ∧ '.' ∉ rep ∧ '.' ∉ d ∧ p = rep ++ '@' :: d) ∨
  (∃ h rep d, hostOK h ∧ repoOK rep ∧ digestOK d ∧ containsSub rep h = false ∧
    p = h ++ '/' :: (rep ++ '@' :: d))

/-- Reassemble a registry path from its four projections with the standard
separators, omitting empty components. -/
def reconstruct (h rep t d : GoStr) : GoStr :=
  (if h = [] then [] else h ++ ['/']) ++ rep
    ++ (if t = [] then [] else ':' :: t)
    ++ (if d = [] then [] else '@' :: d)

/-- A status line whose JSON object carries no field at all (`{}`). -/
def emptyLine : JsonStatusLine := ⟨none, none, none, none, none⟩

/-- A 26-line stream: line 0 sets only `status`, lines 1–24 are empty
objects, line 25 sets only `id`. -/
def mergeStream : List ScanLine :=
  ScanLine.ok ⟨some (str "Pulling from library/nginx"), none, none, none, none⟩
    :: (List.replicate 24 (ScanLine.ok emptyLine)
      ++ [ScanLine.ok ⟨none, some (str "abc"), none, none, none⟩])

example : RegistryPath.Host (str "docker.io/library/nginx:1.21") = str "docker.io" := by decide
example : RegistryPath.Repository (str "docker.io/library/nginx:1.21") = str "library/nginx" := by decide
example : RegistryPath.Tag (str "docker.io/library/nginx:1.21") = str "1.21" := by decide
example : RegistryPath.Digest (str "docker.io/library/nginx:1.21") = [] := by decide
example : RegistryPath.Host (str "app:latest") = [] := by decide
example : RegistryPath.Repository (str "app:latest") = str "app" := by decide
example : RegistryPath.Tag (str "app:latest") = str "latest" := by decide
example : RegistryPath.Host (str "myregistry.internal/app@sha256:deadbeef") = str "myregistry.internal" := by decide
example : RegistryPath.Repository (str "myregistry.internal/app@sha256:deadbeef") = str "app" := by decide
example : RegistryPath.Tag (str "myregistry.internal/app@sha256:deadbeef") = [] := by decide
example : RegistryPath.Digest (str "myregistry.internal/app@sha256:deadbeef") = str "sha256:deadbeef" := by decide

theorem hasPfx_nil (s : GoStr) : hasPfx [] s = true := by cases s <;> rfl

theorem hasPfx_append_self (pat y : GoStr) : hasPfx pat (pat ++ y) = true := by
  induction pat with
  | nil => exact hasPfx_nil y
  | cons a as ih => simp [hasPfx, ih]

theorem hasPfx_cons_ne {c a : Char} (cs rest : GoStr) (h : ¬ a = c) :
    hasPfx (c :: cs) (a :: rest) = false := by
  have hca : (c == a) = false := beq_eq_false_iff_ne.mpr fun hh => h hh.symm
  simp [hasPfx, hca]

theorem containsSub_singleton (s : GoStr) (c : Char) :
    containsSub s [c] = true ↔ c ∈ s := by
  induction s with
  | nil => simp [containsSub, hasPfx]
  | cons a rest ih => simp [containsSub, hasPfx, hasPfx_nil, ih]

theorem containsSub_singleton_true (s : GoStr) (c : Char) (h : c ∈ s) :
    containsSub s [c] = true := (containsSub_singleton s c).mpr h

theorem containsSub_singleton_false (s : GoStr) (c : Char) (h : c ∉ s) :
    containsSub s [c] = false :=
  Bool.eq_false_iff.mpr fun ht => h ((containsSub_singleton s c).mp ht)

theorem containsSub_head_notmem (y : GoStr) (c : Char) (cs : GoStr) (h : c ∉ y) :
    containsSub y (c :: cs) = false := by
  induction y with
  | nil => rfl
  | cons a rest ih =>
    have ha : ¬ a = c := fun hh => h (by rw [← hh]; exact List.mem_cons_self a rest)
    simp [containsSub, hasPfx_cons_ne cs rest ha,
      ih fun hm => h (List.mem_cons_of_mem a hm)]

theorem rAll_skip (pat rep s : GoStr) (skip : Nat) :
    rAll pat rep s skip = rAll pat rep (s.drop skip) 0 := by
  induction s generalizing skip with
  | nil => cases skip <;> rfl
  | cons a rest ih =>
    cases skip with
    | zero => rfl
    | succ k => simpa [rAll] using ih k

theorem replaceAllNE_cons (pat rep : GoStr) (c : Char) (rest : GoStr) :
    replaceAllNE pat rep (c :: rest)
      = if hasPfx pat (c :: rest) then
          rep ++ replaceAllNE pat rep (rest.drop (pat.length - 1))
        else c :: replaceAllNE pat rep rest := by
  show rAll pat rep (c :: rest) 0 = _
  rw [rAll, rAll_skip pat rep rest (pat.length - 1)]
  rfl

theorem replaceAllNE_of_not_contains (pat rep s : GoStr) (h : containsSub s pat = false) :
    replaceAllNE pat rep s = s := by
  induction s with
  | nil => rfl
  | cons c rest ih =>
    rw [containsSub, Bool.or_eq_false_iff] at h
    rw [replaceAllNE_cons]
    simp [h.1, ih h.2]

theorem replaceAllNE_mid (c : Char) (cs rpl x y : GoStr) (hx : c ∉ x)
    (hy : containsSub y (c :: cs) = false) :
    replaceAllNE (c :: cs) rpl (x ++ (c :: cs) ++ y) = x ++ rpl ++ y := by
  induction x with
  | nil =>
    simp only [List.nil_append, List.cons_append]
    rw [replaceAllNE_cons]
    have hp : hasPfx (c :: cs) (c :: (cs ++ y)) = true := hasPfx_append_self (c :: cs) y
    rw [hp]
    simp [List.drop_left, replaceAllNE_of_not_contains _ _ _ hy]
  | cons a x' ih =>
    have ha : ¬ a = c := fun hh => hx (by rw [← hh]; exact List.mem_cons_self a x')
    have hx' : c ∉ x' := fun hm => hx (List.mem_cons_of_mem a hm)
    simp only [List.cons_append]
    rw [replaceAllNE_cons, hasPfx_cons_ne _ _ ha]
    simpa using ih hx'

theorem splitChar_ne_nil (sep : Char) (s : GoStr) : splitChar sep s ≠ [] := by
  induction s with
  | nil => simp [splitChar]
  | cons c rest ih =>
    cases hc : c == sep with
    | true => simp [splitChar, hc]
    | false =>
      cases hrec : splitChar sep rest with
      | nil => exact absurd hrec ih
      | cons t ts => simp [splitChar, hc, hrec]

theorem splitChar_not_mem (sep : Char) (s : GoStr) (h : sep ∉ s) :
    splitChar sep s = [s] := by
  induction s with
  | nil => rfl
  | cons c rest ih =>
    have hc : (c == sep) = false :=
      beq_eq_false_iff_ne.mpr fun hh => h (by rw [hh]; exact List.mem_cons_self sep rest)
    have hr := ih fun hm => h (List.mem_cons_of_mem c hm)
    simp [splitChar, hc, hr]

theorem splitChar_append (sep : Char) (a b : GoStr) (h : sep ∉ a) :
    splitChar sep (a ++ sep :: b) = a :: splitChar sep b := by
  induction a with
  | nil => simp [splitChar]
  | cons c a' ih =>
    have hc : (c == sep) = false :=
      beq_eq_false_iff_ne.mpr fun hh => h (by rw [hh]; exact List.mem_cons_self sep a')
    have hr := ih fun hm => h (List.mem_cons_of_mem c hm)
    cases hrec : splitChar sep (a' ++ sep :: b) with
    | nil => exact absurd hrec (splitChar_ne_nil sep _)
    | cons t ts =>
      rw [hrec] at hr
      cases hr
      simp [splitChar, hc, hrec]

theorem splitChar_head (sep : Char) (s : GoStr) :
    (splitChar sep s).getD 0 [] = s.takeWhile (fun x => x != sep) := by
  induction s with
  | nil => rfl
  | cons c rest ih =>
    cases hc : c == sep with
    | true => simp [splitChar, hc, List.takeWhile_cons, beq_iff_eq.mp hc]
    | false =>
      cases hrec : splitChar sep rest with
      | nil => exact absurd hrec (splitChar_ne_nil sep rest)
      | cons t ts =>
        have : t = rest.takeWhile (fun x => x != sep) := by rw [← ih, hrec]; rfl
        simp [splitChar, hc, hrec, List.takeWhile_cons, this, beq_eq_false_iff_ne.mp hc]

theorem trimLeftChar_of_head_ne (cut : Char) (s : GoStr) (h : hasPfx [cut] s = false) :
    trimLeftChar cut s = s := by
  cases s with
  | nil => rfl
  | cons c rest =>
    simp only [hasPfx, hasPfx_nil, Bool.and_true] at h
    have hc : (c == cut) = false :=
      beq_eq_false_iff_ne.mpr fun hh => absurd (beq_eq_false_iff_ne.mp h) (by simp [hh])
    simp [trimLeftChar, hc]

theorem trimLeft_slash_cons (rep : GoStr) (h : hasPfx ['/'] rep = false) :
    trimLeftChar '/' ('/' :: rep) = rep := by
  simp [trimLeftChar, trimLeftChar_of_head_ne '/' rep h]

theorem notmem_append_cons {c sep : Char} {x y : GoStr} (h1 : c ∉ x) (h2 : c ∉ y)
    (h3 : ¬ c = sep) : c ∉ x ++ sep :: y := by
  intro hm
  rcases List.mem_append.mp hm with hc | hc
  · exact h1 hc
  · rcases List.mem_cons.mp hc with hc2 | hc2
    · exact h3 hc2
    · exact h2 hc2

theorem mem_append_cons_self (c : Char) (x y : GoStr) : c ∈ x ++ c :: y :=
  List.mem_append.mpr (Or.inr (List.mem_cons_self c y))
theorem strip_suffix (x : GoStr) (c : Char) (t : GoStr) (hx : c ∉ x) :
    goReplaceAll (x ++ c :: t) (c :: t) [] = x := by
  show replaceAllNE (c :: t) [] (x ++ c :: t) = x
  have := replaceAllNE_mid c t [] x [] hx rfl
  simpa using this

theorem strip_host (h rep : GoStr) (hne : h ≠ []) (hsl : '/' ∉ h)
    (hcr : containsSub rep h = false) :
    goReplaceAll (h ++ '/' :: rep) h [] = '/' :: rep := by
  obtain ⟨c, cs, rfl⟩ : ∃ c cs, h = c :: cs := by
    cases h with
    | nil => exact absurd rfl hne
    | cons a b => exact ⟨a, b, rfl⟩
  show replaceAllNE (c :: cs) [] ((c :: cs) ++ '/' :: rep) = '/' :: rep
  have hc : ¬ '/' = c := fun hh => hsl (by rw [hh]; exact List.mem_cons_self c cs)
  have hy : containsSub ('/' :: rep) (c :: cs) = false := by
    rw [containsSub, hasPfx_cons_ne cs rep hc, hcr]
    rfl
  have := replaceAllNE_mid c cs [] [] ('/' :: rep) (by simp) hy
  simpa using this

theorem Digest_no_at (r : GoStr) (h : '@' ∉ r) : RegistryPath.Digest r = [] := by
  simp [RegistryPath.Digest, containsSub_singleton_false r '@' h]

theorem Digest_split (x d : GoStr) (hx : '@' ∉ x) (hd : '@' ∉ d) :
    RegistryPath.Digest (x ++ '@' :: d) = d := by
  simp [RegistryPath.Digest,
    containsSub_singleton_true _ '@' (mem_append_cons_self '@' x d),
    splitChar_append '@' x d hx, splitChar_not_mem '@' d hd]

theorem Tag_of_at (r : GoStr) (h : '@' ∈ r) : RegistryPath.Tag r = [] := by
  simp [RegistryPath.Tag, containsSub_singleton_true r '@' h]

theorem Tag_no_colon (r : GoStr) (h1 : '@' ∉ r) (h2 : ':' ∉ r) :
    RegistryPath.Tag r = [] := by
  simp [RegistryPath.Tag, containsSub_singleton_false r '@' h1,
    containsSub_singleton_false r ':' h2]

theorem Tag_split (x t : GoStr) (hx1 : '@' ∉ x) (ht1 : '@' ∉ t) (hx2 : ':' ∉ x)
    (ht2 : ':' ∉ t) : RegistryPath.Tag (x ++ ':' :: t) = t := by
  have hat : '@' ∉ x ++ ':' :: t := notmem_append_cons hx1 ht1 (by decide)
  simp [RegistryPath.Tag, containsSub_singleton_false _ '@' hat,
    containsSub_singleton_true _ ':' (mem_append_cons_self ':' x t),
    splitChar_append ':' x t hx2, splitChar_not_mem ':' t ht2]

theorem Host_nodot (r : GoStr) (ht : RegistryPath.Tag r = []) (hd : '.' ∉ r) :
    RegistryPath.Host r = [] := by
  simp [RegistryPath.Host, ht, containsSub_singleton_false r '.' hd]

theorem Host_nodot_tag (rep t : GoStr) (hr2 : ':' ∉ rep) (hr3 : '@' ∉ rep)
    (ht : tagOK t) (hdot : '.' ∉ rep) :
    RegistryPath.Host (rep ++ ':' :: t) = [] := by
  obtain ⟨htne, ht2, ht1⟩ := ht
  have htag : RegistryPath.Tag (rep ++ ':' :: t) = t := Tag_split rep t hr3 ht1 hr2 ht2
  rw [RegistryPath.Host, htag]
  simp [htne, strip_suffix rep ':' t hr2, containsSub_singleton_false rep '.' hdot]

theorem Host_nodot_digest (rep d : GoStr) (hdot1 : '.' ∉ rep) (hdot2 : '.' ∉ d) :
    RegistryPath.Host (rep ++ '@' :: d) = [] := by
  have htag := Tag_of_at _ (mem_append_cons_self '@' rep d)
  rw [RegistryPath.Host, htag]
  have hnd : '.' ∉ rep ++ '@' :: d := notmem_append_cons hdot1 hdot2 (by decide)
  simp [containsSub_singleton_false _ '.' hnd]

theorem Host_host (h rep : GoStr) (hh : hostOK h) (hr2 : ':' ∉ rep) (hr3 : '@' ∉ rep) :
    RegistryPath.Host (h ++ '/' :: rep) = h := by
  obtain ⟨-, hdot, hsl, hco, hat⟩ := hh
  have htag : RegistryPath.Tag (h ++ '/' :: rep) = [] :=
    Tag_no_colon _ (notmem_append_cons hat hr3 (by decide))
      (notmem_append_cons hco hr2 (by decide))
  rw [RegistryPath.Host, htag]
  have hdr : '.' ∈ h ++ '/' :: rep := List.mem_append.mpr (Or.inl hdot)
  simp [containsSub_singleton_true _ '.' hdr, splitChar_append '/' h rep hsl]

theorem Host_host_tag (h rep t : GoStr) (hh : hostOK h) (hr2 : ':' ∉ rep) (hr3 : '@' ∉ rep)
    (ht : tagOK t) :
    RegistryPath.Host (h ++ '/' :: (rep ++ ':' :: t)) = h := by
  obtain ⟨-, hdot, hsl, hco, hat⟩ := hh
  obtain ⟨htne, ht2, ht1⟩ := ht
  have hx2 : ':' ∉ h ++ '/' :: rep := notmem_append_cons hco hr2 (by decide)
  have hx1 : '@' ∉ h ++ '/' :: rep := notmem_append_cons hat hr3 (by decide)
  have hassoc : h ++ '/' :: (rep ++ ':' :: t) = (h ++ '/' :: rep) ++ ':' :: t := by simp
  have htag : RegistryPath.Tag (h ++ '/' :: (rep ++ ':' :: t)) = t := by
    rw [hassoc]; exact Tag_split _ t hx1 ht1 hx2 ht2
  rw [RegistryPath.Host, htag]
  have hstrip : goReplaceAll (h ++ '/' :: (rep ++ ':' :: t)) (':' :: t) [] = h ++ '/' :: rep := by
    rw [hassoc]; exact strip_suffix _ ':' t hx2
  have hdr : '.' ∈ h ++ '/' :: rep := List.mem_append.mpr (Or.inl hdot)
  simp [htne, hstrip, containsSub_singleton_true _ '.' hdr,
    splitChar_append '/' h (rep ++ ':' :: t) hsl]

theorem Host_host_digest (h rep d : GoStr) (hh : hostOK h) :
    RegistryPath.Host (h ++ '/' :: (rep ++ '@' :: d)) = h := by
  obtain ⟨-, hdot, hsl, -, -⟩ := hh
  have hmem : '@' ∈ h ++ '/' :: (rep ++ '@' :: d) :=
    List.mem_append.mpr (Or.inr (List.mem_cons_of_mem '/' (mem_append_cons_self '@' rep d)))
  have htag := Tag_of_at _ hmem
  rw [RegistryPath.Host, htag]
  have hdr : '.' ∈ h ++ '/' :: (rep ++ '@' :: d) := List.mem_append.mpr (Or.inl hdot)
  simp [containsSub_singleton_true _ '.' hdr, splitChar_append '/' h (rep ++ '@' :: d) hsl]

theorem Repository_plain (rep : GoStr) (h1 : ':' ∉ rep) (h2 : '@' ∉ rep) (h3 : '.' ∉ rep)
    (h4 : hasPfx ['/'] rep = false) :
    RegistryPath.Repository rep = rep := by
  have ht := Tag_no_colon rep h2 h1
  have hd := Digest_no_at rep h2
  have hh := Host_nodot rep ht h3
  simp [RegistryPath.Repository, ht, hd, hh, trimLeftChar_of_head_ne '/' rep h4]

theorem Repository_tag (rep t : GoStr) (h1 : ':' ∉ rep) (h2 : '@' ∉ rep) (h3 : '.' ∉ rep)
    (h4 : hasPfx ['/'] rep = false) (ht : tagOK t) :
    RegistryPath.Repository (rep ++ ':' :: t) = rep := by
  obtain ⟨htne, ht2, ht1⟩ := ht
  have htag : RegistryPath.Tag (rep ++ ':' :: t) = t := Tag_split rep t h2 ht1 h1 ht2
  have hd : RegistryPath.Digest (rep ++ ':' :: t) = [] :=
    Digest_no_at _ (notmem_append_cons h2 ht1 (by decide))
  have hh := Host_nodot_tag rep t h1 h2 ⟨htne, ht2, ht1⟩ h3
  simp [RegistryPath.Repository, htag, hd, hh, htne, strip_suffix rep ':' t h1,
    trimLeftChar_of_head_ne '/' rep h4]

theorem Repository_digest (rep d : GoStr) (_h1 : ':' ∉ rep) (h2 : '@' ∉ rep) (h3 : '.' ∉ rep)
    (h4 : hasPfx ['/'] rep = false) (hd : digestOK d) (hd3 : '.' ∉ d) :
    RegistryPath.Repository (rep ++ '@' :: d) = rep := by
  obtain ⟨hdne, hd1⟩ := hd
  have htag := Tag_of_at _ (mem_append_cons_self '@' rep d)
  have hdig : RegistryPath.Digest (rep ++ '@' :: d) = d := Digest_split rep d h2 hd1
  have hh := Host_nodot_digest rep d h3 hd3
  simp [RegistryPath.Repository, htag, hdig, hh, hdne, strip_suffix rep '@' d h2,
    trimLeftChar_of_head_ne '/' rep h4]

theorem Repository_host (h rep : GoStr) (hh : hostOK h) (hr : repoOK rep)
    (hcr : containsSub rep h = false) :
    RegistryPath.Repository (h ++ '/' :: rep) = rep := by
  obtain ⟨hne, hdot, hsl, hco, hat⟩ := hh
  obtain ⟨-, hr1, hr2, hr4⟩ := hr
  have htag : RegistryPath.Tag (h ++ '/' :: rep) = [] :=
    Tag_no_colon _ (notmem_append_cons hat hr2 (by decide))
      (notmem_append_cons hco hr1 (by decide))
  have hd : RegistryPath.Digest (h ++ '/' :: rep) = [] :=
    Digest_no_at _ (notmem_append_cons hat hr2 (by decide))
  have hho := Host_host h rep ⟨hne, hdot, hsl, hco, hat⟩ hr1 hr2
  simp [RegistryPath.Repository, htag, hd, hho, hne, strip_host h rep hne hsl hcr,
    trimLeft_slash_cons rep hr4]

theorem Repository_host_tag (h rep t : GoStr) (hh : hostOK h) (hr : repoOK rep) (ht : tagOK t)
    (hcr : containsSub rep h = false) :
    RegistryPath.Repository (h ++ '/' :: (rep ++ ':' :: t)) = rep := by
  obtain ⟨hne, hdot, hsl, hco, hat⟩ := hh
  obtain ⟨-, hr1, hr2, hr4⟩ := hr
  obtain ⟨htne, ht2, ht1⟩ := ht
  have hx2 : ':' ∉ h ++ '/' :: rep := notmem_append_cons hco hr1 (by decide)
  have hx1 : '@' ∉ h ++ '/' :: rep := notmem_append_cons hat hr2 (by decide)
  have hassoc : h ++ '/' :: (rep ++ ':' :: t) = (h ++ '/' :: rep) ++ ':' :: t := by simp
  have htag : RegistryPath.Tag (h ++ '/' :: (rep ++ ':' :: t)) = t := by
    rw [hassoc]; exact Tag_split _ t hx1 ht1 hx2 ht2
  have hdig : RegistryPath.Digest (h ++ '/' :: (rep ++ ':' :: t)) = [] :=
    Digest_no_at _ (by rw [hassoc]; exact notmem_append_cons hx1 ht1 (by decide))
  have hho := Host_host_tag h rep t ⟨hne, hdot, hsl, hco, hat⟩ hr1 hr2 ⟨htne, ht2, ht1⟩
  have hstrip : goReplaceAll (h ++ '/' :: (rep ++ ':' :: t)) (':' :: t) [] = h ++ '/' :: rep := by
    rw [hassoc]; exact strip_suffix _ ':' t hx2
  simp [RegistryPath.Repository, htag, hdig, hho, htne, hne, hstrip,
    strip_host h rep hne hsl hcr, trimLeft_slash_cons rep hr4]

theorem Repository_host_digest (h rep d : GoStr) (hh : hostOK h) (hr : repoOK rep)
    (hd : digestOK d) (hcr : containsSub rep h = false) :
    RegistryPath.Repository (h ++ '/' :: (rep ++ '@' :: d)) = rep := by
  obtain ⟨hne, hdot, hsl, hco, hat⟩ := hh
  obtain ⟨-, hr1, hr2, hr4⟩ := hr
  obtain ⟨hdne, hd1⟩ := hd
  have hx1 : '@' ∉ h ++ '/' :: rep := notmem_append_cons hat hr2 (by decide)
  have hassoc : h ++ '/' :: (rep ++ '@' :: d) = (h ++ '/' :: rep) ++ '@' :: d := by simp
  have htag : RegistryPath.Tag (h ++ '/' :: (rep ++ '@' :: d)) = [] :=
    Tag_of_at _ (by rw [hassoc]; exact mem_append_cons_self '@' _ d)
  have hdig : RegistryPath.Digest (h ++ '/' :: (rep ++ '@' :: d)) = d := by
    rw [hassoc]; exact Digest_split _ d hx1 hd1
  have hho := Host_host_digest h rep d ⟨hne, hdot, hsl, hco, hat⟩
  have hstrip : goReplaceAll (h ++ '/' :: (rep ++ '@' :: d)) ('@' :: d) [] = h ++ '/' :: rep := by
    rw [hassoc]; exact strip_suffix _ '@' d hx1
  simp [RegistryPath.Repository, htag, hdig, hho, hdne, hne, hstrip,
    strip_host h rep hne hsl hcr, trimLeft_slash_cons rep hr4]

theorem progressLogs_append (command image : GoStr) (xs ys : List JsonStatusLine)
    (st : Status) (s : Nat) :
    progressLogs command image (xs ++ ys) st s
      = progressLogs command image xs st s
        ++ progressLogs command image ys (List.foldl applyStatus st xs) (s + xs.length) := by
  induction xs generalizing st s with
  | nil => simp [progressLogs]
  | cons l xs ih =>
    simp only [List.cons_append, progressLogs, List.foldl_cons, List.length_cons,
      List.append_eq]
    rw [ih]
    have harith : s + 1 + xs.length = s + (xs.length + 1) := by omega
    rw [harith, List.append_assoc]

theorem progressLogs_silent (command image : GoStr) (ls : List JsonStatusLine)
    (st : Status) (s : Nat) (h1 : 0 < s) (h2 : s + ls.length ≤ 25) :
    progressLogs command image ls st s = [] := by
  induction ls generalizing st s with
  | nil => rfl
  | cons l ls ih =>
    have hlt : s < 25 := by
      simp only [List.length_cons] at h2
      omega
    have hmod : s % 25 ≠ 0 := by
      rw [Nat.mod_eq_of_lt hlt]
      omega
    have hb : (s % 25 == 0) = false := beq_eq_false_iff_ne.mpr hmod
    simp only [progressLogs, hb, Bool.false_eq_true, if_false, List.nil_append]
    exact ih _ (s + 1) (by omega) (by simp only [List.length_cons] at h2; omega)

theorem progressLogs_mem (command image : GoStr) (ls : List JsonStatusLine) (st : Status)
    (s : Nat) (x : GoStr) (hx : x ∈ progressLogs command image ls st s) :
    ∃ m, x = progressLine command image m := by
  induction ls generalizing st s with
  | nil => simp [progressLogs] at hx
  | cons l ls ih =>
    simp only [progressLogs] at hx
    rcases List.mem_append.mp hx with hc | hc
    · split at hc
      · exact ⟨_, List.mem_singleton.mp hc⟩
      · simp at hc
    · exact ih _ _ hc

theorem progressLine_ne_completeLine (command image msg : GoStr) :
    progressLine command image msg ≠ completeLine command image := by
  intro h
  have h1 : (progressLine command image msg).getLast? = some ')' := by
    simp [progressLine]
  have h2 : (completeLine command image).getLast? = some '.' := by
    simp [completeLine]
  rw [h, h2] at h1
  exact absurd (Option.some.inj h1) (by decide)

theorem completeLine_notmem_progressLogs (command image : GoStr) (ls : List JsonStatusLine)
    (st : Status) (s : Nat) :
    completeLine command image ∉ progressLogs command image ls st s := by
  intro hm
  obtain ⟨m, hm2⟩ := progressLogs_mem command image ls st s _ hm
  exact progressLine_ne_completeLine command image m hm2.symm

theorem waitLoop_ok_append (command image : GoStr) (pre : List JsonStatusLine)
    (rest : List ScanLine) (st : Status) (scans : Nat) (logs : List GoStr)
    (se : Option GoStr) (hpre : ∀ l ∈ pre, l.error.getD [] = []) :
    waitLoop command image (pre.map ScanLine.ok ++ rest) st [] scans logs se
      = waitLoop command image rest (List.foldl applyStatus st pre) []
          (scans + pre.length) (logs ++ progressLogs command image pre st scans) se := by
  induction pre generalizing st scans logs with
  | nil => simp [progressLogs]
  | cons l pre ih =>
    have hl : l.error.getD [] = [] := hpre l (List.mem_cons_self l pre)
    have hpre' : ∀ x ∈ pre, x.error.getD [] = [] := fun x hx => hpre x (List.mem_cons_of_mem l hx)
    simp only [List.map_cons, List.cons_append, waitLoop, applyError, hl, List.append_eq]
    rw [if_neg (by simp)]
    rw [ih _ _ _ hpre']
    simp only [progressLogs, List.foldl_cons, List.length_cons]
    have harith : scans + 1 + pre.length = scans + (pre.length + 1) := by omega
    rw [harith]
    by_cases hm : (scans % 25 == 0) = true
    · simp [hm]
    · simp [hm]

/-- C3, counterexample: in "a/b.c" the first segment "a" contains no `.`,
so the claim predicts `Host = ""`; the code returns "a", because the `.`
test is applied to the whole string rather than to the first segment. -/
theorem c3_counterexample :
    RegistryPath.Host (str "a/b.c") = str "a" ∧ RegistryPath.Host (str "a/b.c") ≠ [] := by
  decide

/-- C3 (amended): `Host()` returns the first `/`-delimited segment of the
original string — which may itself be empty (a path starting with `/`)
and, for `/`-free strings, is the whole string including any tag — exactly
when the whole tag-stripped string contains a `.` anywhere, and returns
the empty string when the tag-stripped string contains no `.`.  Stated for
every tag-free string `r` (first two conjuncts) and for every tagged
string with exactly one `:`, written `a ++ ":" ++ t` (third conjunct,
where the tag-stripped string is `a`). -/
theorem c3_host_dot_whole_string (r a t : GoStr) :
    (RegistryPath.Tag r = [] → '.' ∈ r →
        RegistryPath.Host r = r.takeWhile (fun c => c != '/'))
    ∧ (RegistryPath.Tag r = [] → '.' ∉ r → RegistryPath.Host r = [])
    ∧ (':' ∉ a → ':' ∉ t → '@' ∉ a → '@' ∉ t → t ≠ [] →
        (('.' ∈ a →
            RegistryPath.Host (a ++ ':' :: t) = (a ++ ':' :: t).takeWhile (fun c => c != '/'))
          ∧ ('.' ∉ a → RegistryPath.Host (a ++ ':' :: t) = []))) := by
  refine ⟨?_, ?_, ?_⟩
  · intro ht hd
    rw [RegistryPath.Host, ht]
    simp [containsSub_singleton_true r '.' hd]
    simpa using splitChar_head '/' r
  · intro ht hd
    exact Host_nodot r ht hd
  · intro ha2 ht2 ha1 ht1 htne
    have htag : RegistryPath.Tag (a ++ ':' :: t) = t := Tag_split a t ha1 ht1 ha2 ht2
    constructor
    · intro hd
      rw [RegistryPath.Host, htag]
      simp [htne, strip_suffix a ':' t ha2, containsSub_singleton_true a '.' hd]
      simpa using splitChar_head '/' (a ++ ':' :: t)
    · intro hd
      rw [RegistryPath.Host, htag]
      simp [htne, strip_suffix a ':' t ha2, containsSub_singleton_false a '.' hd]

/-- C3, witness for the amended theorem: a tag-free path "my.host/app"
(dot present, host is the first segment), a tagged slash-free path
"r.io:v1" (dot present, the whole string is returned), and a tagged path
"app:v1" with no dot in the stripped string (empty host). -/
theorem c3_witness :
    RegistryPath.Tag (str "my.host/app") = [] ∧ ('.' ∈ str "my.host/app")
    ∧ RegistryPath.Host (str "my.host/app") = (str "my.host/app").takeWhile (fun c => c != '/')
    ∧ (str "my.host/app").takeWhile (fun c => c != '/') = str "my.host"
    ∧ RegistryPath.Host (str "r.io" ++ ':' :: str "v1")
        = (str "r.io" ++ ':' :: str "v1").takeWhile (fun c => c != '/')
    ∧ (str "r.io" ++ ':' :: str "v1").takeWhile (fun c => c != '/') = str "r.io:v1"
    ∧ RegistryPath.Host (str "app" ++ ':' :: str "v1") = [] :=
  ⟨by decide, by decide,
    (c3_host_dot_whole_string (str "my.host/app") [] []).1 (by decide) (by decide),
    by decide,
    ((c3_host_dot_whole_string [] (str "r.io") (str "v1")).2.2
        (by decide) (by decide) (by decide) (by decide) (by decide)).1 (by decide),
    by decide,
    ((c3_host_dot_whole_string [] (str "app") (str "v1")).2.2
        (by decide) (by decide) (by decide) (by decide) (by decide)).2 (by decide)⟩

/-- C4, counterexample: on "a.b/a.b" the host is "a.b" and the claim
predicts `Repository = "a.b"` (host prefix removed once, then trim), but
the code removes every occurrence of the host and returns "". -/
theorem c4_counterexample :
    RegistryPath.Host (str "a.b/a.b") = str "a.b"
    ∧ RegistryPath.Repository (str "a.b/a.b") = []
    ∧ RegistryPath.Repository (str "a.b/a.b") ≠ str "a.b" := by decide

/-- C4 (amended): `Repository()` removes every occurrence (replace-all) of
`":" + Tag`, then of `"@" + Digest`, then of `Host`, then trims leading
`/`; when the tag and digest occur only as the suffix and the host does not
recur in the rest of the string, this agrees with the claim's
suffix-and-prefix removal. -/
theorem c4_repository_strip (h rep t d : GoStr) (hh : hostOK h) (hr : repoOK rep)
    (ht : tagOK t) (hd : digestOK d) (hcr : containsSub rep h = false) :
    RegistryPath.Repository (h ++ '/' :: rep) = rep
    ∧ RegistryPath.Repository (h ++ '/' :: (rep ++ ':' :: t)) = rep
    ∧ RegistryPath.Repository (h ++ '/' :: (rep ++ '@' :: d)) = rep :=
  ⟨Repository_host h rep hh hr hcr, Repository_host_tag h rep t hh hr ht hcr,
    Repository_host_digest h rep d hh hr hd hcr⟩

/-- C4, witness for the amended theorem at host "r.io", repository "app",
tag "v1", digest "sha256xyz". -/
theorem c4_witness :
    hostOK (str "r.io") ∧ repoOK (str "app") ∧ tagOK (str "v1") ∧ digestOK (str "sha256xyz")
    ∧ containsSub (str "app") (str "r.io") = false
    ∧ (RegistryPath.Repository (str "r.io" ++ '/' :: str "app") = str "app"
        ∧ RegistryPath.Repository (str "r.io" ++ '/' :: (str "app" ++ ':' :: str "v1")) = str "app"
        ∧ RegistryPath.Repository (str "r.io" ++ '/' :: (str "app" ++ '@' :: str "sha256xyz")) = str "app") :=
  ⟨by decide, by decide, by decide, by decide, by decide,
    c4_repository_strip (str "r.io") (str "app") (str "v1") (str "sha256xyz")
      (by decide) (by decide) (by decide) (by decide) (by decide)⟩

/-- C5, counterexample: "a:b:c" contains no `@` and at least one `:`; the
remainder after the first `:` is "b:c", but `Tag` returns only "b" (the
second token of the full split on `:`). -/
theorem c5_counterexample :
    RegistryPath.Tag (str "a:b:c") = str "b"
    ∧ RegistryPath.Tag (str "a:b:c") ≠ str "b:c" := by decide

/-- C5 (amended): for `@`-free strings with at least one `:`, `Tag()`
returns the text after the first `:` only up to (excluding) the next `:`,
i.e. the second token of the full split — which equals the entire remainder
exactly when that remainder contains no further `:`; for strings containing
`@` or containing no `:`, `Tag()` returns the empty string. -/
theorem c5_tag_second_token (a b : GoStr) (ha1 : '@' ∉ a) (hb1 : '@' ∉ b) (ha2 : ':' ∉ a) :
    RegistryPath.Tag (a ++ ':' :: b) = b.takeWhile (fun c => c != ':')
    ∧ ∀ r : GoStr, containsSub r ['@'] = true ∨ containsSub r [':'] = false →
        RegistryPath.Tag r = [] := by
  constructor
  · have hat : '@' ∉ a ++ ':' :: b := notmem_append_cons ha1 hb1 (by decide)
    simp [RegistryPath.Tag, containsSub_singleton_false _ '@' hat,
      containsSub_singleton_true _ ':' (mem_append_cons_self ':' a b),
      splitChar_append ':' a b ha2]
    simpa using splitChar_head ':' b
  · intro r hr
    rcases hr with hr | hr <;> simp [RegistryPath.Tag, hr]

/-- C5, witness for the amended theorem at `a = "app"`, `b = "v1.2/x"`. -/
theorem c5_witness :
    ('@' ∉ str "app") ∧ ('@' ∉ str "v1.2/x") ∧ (':' ∉ str "app")
    ∧ (RegistryPath.Tag (str "app" ++ ':' :: str "v1.2/x")
          = (str "v1.2/x").takeWhile (fun c => c != ':')
        ∧ ∀ r : GoStr, containsSub r ['@'] = true ∨ containsSub r [':'] = false →
            RegistryPath.Tag r = []) :=
  ⟨by decide, by decide, by decide,
    c5_tag_second_token (str "app") (str "v1.2/x") (by decide) (by decide) (by decide)⟩

/-- C8, counterexample: "a:t@b@c" contains both `@` and a `:` tag marker;
the text after the (first) `@` is "b@c", but `Digest` returns only "b"
(the second token of the full split on `@`). -/
theorem c8_counterexample :
    RegistryPath.Digest (str "a:t@b@c") = str "b"
    ∧ RegistryPath.Digest (str "a:t@b@c") ≠ str "b@c"
    ∧ RegistryPath.Tag (str "a:t@b@c") = [] := by decide

/-- C8 (amended): for every path containing a `:` and exactly one `@`
(written `a ++ "@" ++ b` with `@`-free `a` and `b`), `Digest` returns the
text after the `@` and `Tag` returns the empty string: digest takes parsing
precedence over tag.  (With several `@`s, `Digest` returns only the text
between the first and second `@`.) -/
theorem c8_digest_precedence (a b : GoStr) (ha : '@' ∉ a) (hb : '@' ∉ b)
    (_hc : ':' ∈ a ∨ ':' ∈ b) :
    RegistryPath.Digest (a ++ '@' :: b) = b ∧ RegistryPath.Tag (a ++ '@' :: b) = [] :=
  ⟨Digest_split a b ha hb, Tag_of_at _ (mem_append_cons_self '@' a b)⟩

/-- C8, witness for the amended theorem at `a = "app:v1"`, `b = "sha256:ab"`. -/
theorem c8_witness :
    ('@' ∉ str "app:v1") ∧ ('@' ∉ str "sha256:ab")
    ∧ ((':' ∈ str "app:v1") ∨ (':' ∈ str "sha256:ab"))
    ∧ (RegistryPath.Digest (str "app:v1" ++ '@' :: str "sha256:ab") = str "sha256:ab"
        ∧ RegistryPath.Tag (str "app:v1" ++ '@' :: str "sha256:ab") = []) :=
  ⟨by decide, by decide, by decide,
    c8_digest_precedence (str "app:v1") (str "sha256:ab") (by decide) (by decide)
      (by decide)⟩

/-- C10: `GetMessage` reads only the `Message` text and the
`ProgressDetail` numbers; two statuses that differ only in `ID` produce the
same message. -/
theorem c10_getMessage_ignores_id (s1 s2 : Status) (hm : s1.Message = s2.Message)
    (hp : s1.progressDetail = s2.progressDetail) :
    Status.GetMessage s1 = Status.GetMessage s2 := by
  simp [Status.GetMessage, hm, hp]

/-- C10, witness at two statuses differing only in `ID`. -/
theorem c10_witness :
    (Status.Message ⟨str "Downloading", str "id1", ⟨3, 7⟩⟩
        = Status.Message ⟨str "Downloading", str "id2", ⟨3, 7⟩⟩)
    ∧ (Status.progressDetail ⟨str "Downloading", str "id1", ⟨3, 7⟩⟩
        = Status.progressDetail ⟨str "Downloading", str "id2", ⟨3, 7⟩⟩)
    ∧ Status.GetMessage ⟨str "Downloading", str "id1", ⟨3, 7⟩⟩
        = Status.GetMessage ⟨str "Downloading", str "id2", ⟨3, 7⟩⟩ :=
  ⟨rfl, rfl, c10_getMessage_ignores_id _ _ rfl rfl⟩

/-- C9: for every well-formed registry path (spec grammar, no host:port
form), reassembling the four projections with the standard separators —
omitting empty components — gives a string whose four projections are the
same as the original's. -/
theorem c9_roundtrip (p : RegistryPath) (hwf : WellFormed p) :
    RegistryPath.Host (reconstruct (RegistryPath.Host p) (RegistryPath.Repository p)
        (RegistryPath.Tag p) (RegistryPath.Digest p)) = RegistryPath.Host p
    ∧ RegistryPath.Repository (reconstruct (RegistryPath.Host p) (RegistryPath.Repository p)
        (RegistryPath.Tag p) (RegistryPath.Digest p)) = RegistryPath.Repository p
    ∧ RegistryPath.Tag (reconstruct (RegistryPath.Host p) (RegistryPath.Repository p)
        (RegistryPath.Tag p) (RegistryPath.Digest p)) = RegistryPath.Tag p
    ∧ RegistryPath.Digest (reconstruct (RegistryPath.Host p) (RegistryPath.Repository p)
        (RegistryPath.Tag p) (RegistryPath.Digest p)) = RegistryPath.Digest p := by
  rcases hwf with ⟨rep, hr, h3, rfl⟩ | ⟨h, rep, hh, hr, hcr, rfl⟩ | ⟨rep, t, hr, ht, h3, rfl⟩
    | ⟨h, rep, t, hh, hr, ht, hcr, rfl⟩ | ⟨rep, d, hr, hd, h3, h3d, rfl⟩
    | ⟨h, rep, d, hh, hr, hd, hcr, rfl⟩
  · obtain ⟨hne, h1, h2, h4⟩ := hr
    have hT := Tag_no_colon p h2 h1
    have hD := Digest_no_at p h2
    have hH := Host_nodot p hT h3
    have hR := Repository_plain p h1 h2 h3 h4
    rw [hT, hD, hH, hR, show reconstruct [] p [] [] = p by simp [reconstruct]]
    exact ⟨hH, hR, hT, hD⟩
  · obtain ⟨hr0, hr1, hr2, hr4⟩ := hr
    have hT : RegistryPath.Tag (h ++ '/' :: rep) = [] :=
      Tag_no_colon _ (notmem_append_cons hh.2.2.2.2 hr2 (by decide))
        (notmem_append_cons hh.2.2.2.1 hr1 (by decide))
    have hD : RegistryPath.Digest (h ++ '/' :: rep) = [] :=
      Digest_no_at _ (notmem_append_cons hh.2.2.2.2 hr2 (by decide))
    have hH := Host_host h rep hh hr1 hr2
    have hR := Repository_host h rep hh ⟨hr0, hr1, hr2, hr4⟩ hcr
    rw [hT, hD, hH, hR, show reconstruct h rep [] [] = h ++ '/' :: rep by
      simp [reconstruct, hh.1]]
    exact ⟨hH, hR, hT, hD⟩
  · obtain ⟨hr0, h1, h2, h4⟩ := hr
    have hT : RegistryPath.Tag (rep ++ ':' :: t) = t := Tag_split rep t h2 ht.2.2 h1 ht.2.1
    have hD : RegistryPath.Digest (rep ++ ':' :: t) = [] :=
      Digest_no_at _ (notmem_append_cons h2 ht.2.2 (by decide))
    have hH := Host_nodot_tag rep t h1 h2 ht h3
    have hR := Repository_tag rep t h1 h2 h3 h4 ht
    rw [hT, hD, hH, hR, show reconstruct [] rep t [] = rep ++ ':' :: t by
      simp [reconstruct, ht.1]]
    exact ⟨hH, hR, hT, hD⟩
  · obtain ⟨hr0, hr1, hr2, hr4⟩ := hr
    have hx2 : ':' ∉ h ++ '/' :: rep := notmem_append_cons hh.2.2.2.1 hr1 (by decide)
    have hx1 : '@' ∉ h ++ '/' :: rep := notmem_append_cons hh.2.2.2.2 hr2 (by decide)
    have hT : RegistryPath.Tag (h ++ '/' :: (rep ++ ':' :: t)) = t := by
      rw [show h ++ '/' :: (rep ++ ':' :: t) = (h ++ '/' :: rep) ++ ':' :: t by simp]
      exact Tag_split _ t hx1 ht.2.2 hx2 ht.2.1
    have hD : RegistryPath.Digest (h ++ '/' :: (rep ++ ':' :: t)) = [] :=
      Digest_no_at _ (by
        rw [show h ++ '/' :: (rep ++ ':' :: t) = (h ++ '/' :: rep) ++ ':' :: t by simp]
        exact notmem_append_cons hx1 ht.2.2 (by decide))
    have hH := Host_host_tag h rep t hh hr1 hr2 ht
    have hR := Repository_host_tag h rep t hh ⟨hr0, hr1, hr2, hr4⟩ ht hcr
    rw [hT, hD, hH, hR, show reconstruct h rep t [] = h ++ '/' :: (rep ++ ':' :: t) by
      simp [reconstruct, hh.1, ht.1]]
    exact ⟨hH, hR, hT, hD⟩
  · obtain ⟨hr0, h1, h2, h4⟩ := hr
    have hT : RegistryPath.Tag (rep ++ '@' :: d) = [] :=
      Tag_of_at _ (mem_append_cons_self '@' rep d)
    have hD : RegistryPath.Digest (rep ++ '@' :: d) = d := Digest_split rep d h2 hd.2
    have hH := Host_nodot_digest rep d h3 h3d
    have hR := Repository_digest rep d h1 h2 h3 h4 hd h3d
    rw [hT, hD, hH, hR, show reconstruct [] rep [] d = rep ++ '@' :: d by
      simp [reconstruct, hd.1]]
    exact ⟨hH, hR, hT, hD⟩
  · obtain ⟨hr0, hr1, hr2, hr4⟩ := hr
    have hx1 : '@' ∉ h ++ '/' :: rep := notmem_append_cons hh.2.2.2.2 hr2 (by decide)
    have hT : RegistryPath.Tag (h ++ '/' :: (rep ++ '@' :: d)) = [] :=
      Tag_of_at _ (by
        rw [show h ++ '/' :: (rep ++ '@' :: d) = (h ++ '/' :: rep) ++ '@' :: d by simp]
        exact mem_append_cons_self '@' _ d)
    have hD : RegistryPath.Digest (h ++ '/' :: (rep ++ '@' :: d)) = d := by
      rw [show h ++ '/' :: (rep ++ '@' :: d) = (h ++ '/' :: rep) ++ '@' :: d by simp]
      exact Digest_split _ d hx1 hd.2
    have hH := Host_host_digest h rep d hh
    have hR := Repository_host_digest h rep d hh ⟨hr0, hr1, hr2, hr4⟩ hd hcr
    rw [hT, hD, hH, hR, show reconstruct h rep [] d = h ++ '/' :: (rep ++ '@' :: d) by
      simp [reconstruct, hh.1, hd.1]]
    exact ⟨hH, hR, hT, hD⟩

/-- C9, witness at the well-formed path "docker.io/library/nginx:1.21". -/
theorem c9_witness :
    WellFormed (str "docker.io/library/nginx:1.21")
    ∧ (RegistryPath.Host (reconstruct (RegistryPath.Host (str "docker.io/library/nginx:1.21"))
          (RegistryPath.Repository (str "docker.io/library/nginx:1.21"))
          (RegistryPath.Tag (str "docker.io/library/nginx:1.21"))
          (RegistryPath.Digest (str "docker.io/library/nginx:1.21")))
          = RegistryPath.Host (str "docker.io/library/nginx:1.21")
      ∧ RegistryPath.Repository (reconstruct (RegistryPath.Host (str "docker.io/library/nginx:1.21"))
          (RegistryPath.Repository (str "docker.io/library/nginx:1.21"))
          (RegistryPath.Tag (str "docker.io/library/nginx:1.21"))
          (RegistryPath.Digest (str "docker.io/library/nginx:1.21")))
          = RegistryPath.Repository (str "docker.io/library/nginx:1.21")
      ∧ RegistryPath.Tag (reconstruct (RegistryPath.Host (str "docker.io/library/nginx:1.21"))
          (RegistryPath.Repository (str "docker.io/library/nginx:1.21"))
          (RegistryPath.Tag (str "docker.io/library/nginx:1.21"))
          (RegistryPath.Digest (str "docker.io/library/nginx:1.21")))
          = RegistryPath.Tag (str "docker.io/library/nginx:1.21")
      ∧ RegistryPath.Digest (reconstruct (RegistryPath.Host (str "docker.io/library/nginx:1.21"))
          (RegistryPath.Repository (str "docker.io/library/nginx:1.21"))
          (RegistryPath.Tag (str "docker.io/library/nginx:1.21"))
          (RegistryPath.Digest (str "docker.io/library/nginx:1.21")))
          = RegistryPath.Digest (str "docker.io/library/nginx:1.21")) :=
  have hwf : WellFormed (str "docker.io/library/nginx:1.21") :=
    Or.inr (Or.inr (Or.inr (Or.inl
      ⟨str "docker.io", str "library/nginx", str "1.21",
        by decide, by decide, by decide, by decide, by decide⟩)))
  ⟨hwf, c9_roundtrip (str "docker.io/library/nginx:1.21") hwf⟩

/-- C2: when line k decodes with a non-empty error field (all earlier lines
decodable and error-free), the consumer returns `"returned error: " ++ e`
(the remote text verbatim under a "returned error" context), the result
does not depend on any line after k nor on the scanner's terminal state,
and the completion line is never logged. -/
theorem c2_remote_error_aborts (command image : GoStr) (pre : List JsonStatusLine)
    (l : JsonStatusLine) (e : GoStr) (s1 s2 : List ScanLine) (se1 se2 : Option GoStr)
    (hpre : ∀ x ∈ pre, x.error.getD [] = []) (hl : l.error = some e) (he : e ≠ []) :
    (waitForScannerComplete command image (pre.map ScanLine.ok ++ ScanLine.ok l :: s1) se1).err
        = some (str "returned error: " ++ e)
    ∧ waitForScannerComplete command image (pre.map ScanLine.ok ++ ScanLine.ok l :: s2) se2
        = waitForScannerComplete command image (pre.map ScanLine.ok ++ ScanLine.ok l :: s1) se1
    ∧ completeLine command image
        ∉ (waitForScannerComplete command image (pre.map ScanLine.ok ++ ScanLine.ok l :: s1) se1).logs := by
  have key : ∀ (s : List ScanLine) (se : Option GoStr),
      waitForScannerComplete command image (pre.map ScanLine.ok ++ ScanLine.ok l :: s) se
        = ⟨progressLogs command image pre zeroStatus 0, some (str "returned error: " ++ e)⟩ := by
    intro s se
    rw [waitForScannerComplete,
      waitLoop_ok_append command image pre (ScanLine.ok l :: s) zeroStatus 0 [] se hpre]
    simp only [waitLoop, applyError, hl, Option.getD_some, List.nil_append]
    rw [if_pos he]
  rw [key s1 se1, key s2 se2]
  exact ⟨rfl, rfl, completeLine_notmem_progressLogs command image pre zeroStatus 0⟩

/-- C2, witness: one clean line, then `{"error":"manifest unknown"}`. -/
theorem c2_witness :
    (∀ x ∈ [emptyLine], x.error.getD ([] : GoStr) = [])
    ∧ JsonStatusLine.error ⟨none, none, none, none, some (str "manifest unknown")⟩
        = some (str "manifest unknown")
    ∧ str "manifest unknown" ≠ []
    ∧ ((waitForScannerComplete (str "pull") (str "img")
          ([emptyLine].map ScanLine.ok
            ++ ScanLine.ok ⟨none, none, none, none, some (str "manifest unknown")⟩
              :: [ScanLine.ok emptyLine]) none).err
          = some (str "returned error: " ++ str "manifest unknown")
        ∧ waitForScannerComplete (str "pull") (str "img")
            ([emptyLine].map ScanLine.ok
              ++ ScanLine.ok ⟨none, none, none, none, some (str "manifest unknown")⟩ :: [])
            (some (str "boom"))
          = waitForScannerComplete (str "pull") (str "img")
            ([emptyLine].map ScanLine.ok
              ++ ScanLine.ok ⟨none, none, none, none, some (str "manifest unknown")⟩
                :: [ScanLine.ok emptyLine]) none
        ∧ completeLine (str "pull") (str "img")
          ∉ (waitForScannerComplete (str "pull") (str "img")
              ([emptyLine].map ScanLine.ok
                ++ ScanLine.ok ⟨none, none, none, none, some (str "manifest unknown")⟩
                  :: [ScanLine.ok emptyLine]) none).logs) :=
  ⟨by decide, rfl, by decide,
    c2_remote_error_aborts (str "pull") (str "img") [emptyLine]
      ⟨none, none, none, none, some (str "manifest unknown")⟩ (str "manifest unknown")
      [ScanLine.ok emptyLine] [] none (some (str "boom"))
      (by decide) rfl (by decide)⟩

/-- C6: a line that fails to unmarshal (into the `Status` shape, or into
the error shape) aborts the run with the wrapping context
`"unmarshal status: "` resp. `"unmarshal error: "`, regardless of its
position; nothing after the bad line (nor the scanner's terminal state)
affects the result, and the completion line is never logged. -/
theorem c6_decode_failure_aborts (command image : GoStr) (pre : List JsonStatusLine)
    (lb : JsonStatusLine) (e : GoStr) (s1 s2 : List ScanLine) (se1 se2 : Option GoStr)
    (hpre : ∀ x ∈ pre, x.error.getD [] = []) :
    ((waitForScannerComplete command image (pre.map ScanLine.ok ++ ScanLine.badStatus e :: s1) se1).err
        = some (str "unmarshal status: " ++ e)
      ∧ waitForScannerComplete command image (pre.map ScanLine.ok ++ ScanLine.badStatus e :: s2) se2
          = waitForScannerComplete command image (pre.map ScanLine.ok ++ ScanLine.badStatus e :: s1) se1
      ∧ completeLine command image
          ∉ (waitForScannerComplete command image (pre.map ScanLine.ok ++ ScanLine.badStatus e :: s1) se1).logs)
    ∧ ((waitForScannerComplete command image (pre.map ScanLine.ok ++ ScanLine.badError lb e :: s1) se1).err
        = some (str "unmarshal error: " ++ e)
      ∧ waitForScannerComplete command image (pre.map ScanLine.ok ++ ScanLine.badError lb e :: s2) se2
          = waitForScannerComplete command image (pre.map ScanLine.ok ++ ScanLine.badError lb e :: s1) se1
      ∧ completeLine command image
          ∉ (waitForScannerComplete command image (pre.map ScanLine.ok ++ ScanLine.badError lb e :: s1) se1).logs) := by
  have key1 : ∀ (s : List ScanLine) (se : Option GoStr),
      waitForScannerComplete command image (pre.map ScanLine.ok ++ ScanLine.badStatus e :: s) se
        = ⟨progressLogs command image pre zeroStatus 0, some (str "unmarshal status: " ++ e)⟩ := by
    intro s se
    rw [waitForScannerComplete,
      waitLoop_ok_append command image pre (ScanLine.badStatus e :: s) zeroStatus 0 [] se hpre]
    simp [waitLoop]
  have key2 : ∀ (s : List ScanLine) (se : Option GoStr),
      waitForScannerComplete command image (pre.map ScanLine.ok ++ ScanLine.badError lb e :: s) se
        = ⟨progressLogs command image pre zeroStatus 0, some (str "unmarshal error: " ++ e)⟩ := by
    intro s se
    rw [waitForScannerComplete,
      waitLoop_ok_append command image pre (ScanLine.badError lb e :: s) zeroStatus 0 [] se hpre]
    simp [waitLoop]
  rw [key1 s1 se1, key1 s2 se2, key2 s1 se1, key2 s2 se2]
  exact ⟨⟨rfl, rfl, completeLine_notmem_progressLogs command image pre zeroStatus 0⟩,
    ⟨rfl, rfl, completeLine_notmem_progressLogs command image pre zeroStatus 0⟩⟩

/-- C6, witness: a bad line in third position, with junk after it. -/
theorem c6_witness :
    (∀ x ∈ [emptyLine, emptyLine], x.error.getD ([] : GoStr) = [])
    ∧ ((waitForScannerComplete (str "push") (str "img")
          ([emptyLine, emptyLine].map ScanLine.ok
            ++ ScanLine.badStatus (str "invalid character") :: [ScanLine.ok emptyLine]) none).err
          = some (str "unmarshal status: " ++ str "invalid character")
        ∧ waitForScannerComplete (str "push") (str "img")
            ([emptyLine, emptyLine].map ScanLine.ok
              ++ ScanLine.badStatus (str "invalid character") :: []) (some (str "io"))
          = waitForScannerComplete (str "push") (str "img")
            ([emptyLine, emptyLine].map ScanLine.ok
              ++ ScanLine.badStatus (str "invalid character") :: [ScanLine.ok emptyLine]) none
        ∧ completeLine (str "push") (str "img")
          ∉ (waitForScannerComplete (str "push") (str "img")
              ([emptyLine, emptyLine].map ScanLine.ok
                ++ ScanLine.badStatus (str "invalid character") :: [ScanLine.ok emptyLine]) none).logs)
    ∧ ((waitForScannerComplete (str "push") (str "img")
          ([emptyLine, emptyLine].map ScanLine.ok
            ++ ScanLine.badError emptyLine (str "invalid character") :: [ScanLine.ok emptyLine]) none).err
          = some (str "unmarshal error: " ++ str "invalid character")
        ∧ waitForScannerComplete (str "push") (str "img")
            ([emptyLine, emptyLine].map ScanLine.ok
              ++ ScanLine.badError emptyLine (str "invalid character") :: []) (some (str "io"))
          = waitForScannerComplete (str "push") (str "img")
            ([emptyLine, emptyLine].map ScanLine.ok
              ++ ScanLine.badError emptyLine (str "invalid character") :: [ScanLine.ok emptyLine]) none
        ∧ completeLine (str "push") (str "img")
          ∉ (waitForScannerComplete (str "push") (str "img")
              ([emptyLine, emptyLine].map ScanLine.ok
                ++ ScanLine.badError emptyLine (str "invalid character") :: [ScanLine.ok emptyLine]) none).logs) :=
  ⟨by decide,
    c6_decode_failure_aborts (str "push") (str "img") [emptyLine, emptyLine] emptyLine
      (str "invalid character") [ScanLine.ok emptyLine] [] none (some (str "io"))
      (by decide)⟩

theorem progressLogs_26 (command image : GoStr) (ls : List JsonStatusLine)
    (h26 : ls.length = 26) :
    progressLogs command image ls zeroStatus 0
      = [progressLine command image
            (Status.GetMessage (List.foldl applyStatus zeroStatus (ls.take 1))),
         progressLine command image
            (Status.GetMessage (List.foldl applyStatus zeroStatus ls))] := by
  cases ls with
  | nil => simp at h26
  | cons l0 tl =>
    have htl : tl ≠ [] := by
      intro h
      rw [h] at h26
      simp at h26
    obtain ⟨mid, last, hm⟩ : ∃ mid last, tl = mid ++ [last] :=
      ⟨tl.dropLast, tl.getLast htl, (List.dropLast_append_getLast htl).symm⟩
    subst hm
    have hmid : mid.length = 24 := by
      simp at h26
      omega
    rw [show progressLogs command image (l0 :: (mid ++ [last])) zeroStatus 0
        = [progressLine command image (Status.GetMessage (applyStatus zeroStatus l0))]
          ++ progressLogs command image (mid ++ [last]) (applyStatus zeroStatus l0) 1 from by
      simp [progressLogs]]
    rw [progressLogs_append command image mid [last] (applyStatus zeroStatus l0) 1]
    rw [progressLogs_silent command image mid (applyStatus zeroStatus l0) 1 (by omega)
      (by omega)]
    have h25 : 1 + mid.length = 25 := by omega
    rw [h25]
    rw [show progressLogs command image [last]
          (List.foldl applyStatus (applyStatus zeroStatus l0) mid) 25
        = [progressLine command image (Status.GetMessage
            (applyStatus (List.foldl applyStatus (applyStatus zeroStatus l0) mid) last))] from by
      simp [progressLogs]]
    simp [List.foldl_append]

/-- C7: on exactly 26 decodable, error-free lines followed by clean
end-of-input, the consumer succeeds and logs exactly two progress lines —
for the lines at counts 0 and 25 — plus one completion line. -/
theorem c7_progress_sampling (command image : GoStr) (ls : List JsonStatusLine)
    (h26 : ls.length = 26) (herr : ∀ l ∈ ls, l.error.getD [] = []) :
    (waitForScannerComplete command image (ls.map ScanLine.ok) none).err = none
    ∧ (waitForScannerComplete command image (ls.map ScanLine.ok) none).logs
        = [progressLine command image
              (Status.GetMessage (List.foldl applyStatus zeroStatus (ls.take 1))),
           progressLine command image
              (Status.GetMessage (List.foldl applyStatus zeroStatus ls)),
           completeLine command image] := by
  have hrun : waitForScannerComplete command image (ls.map ScanLine.ok) none
      = ⟨progressLogs command image ls zeroStatus 0 ++ [completeLine command image], none⟩ := by
    rw [waitForScannerComplete, ← List.append_nil (ls.map ScanLine.ok),
      waitLoop_ok_append command image ls [] zeroStatus 0 [] none herr]
    rfl
  rw [hrun]
  refine ⟨rfl, ?_⟩
  rw [show WaitResult.logs ⟨progressLogs command image ls zeroStatus 0
      ++ [completeLine command image], none⟩
    = progressLogs command image ls zeroStatus 0 ++ [completeLine command image] from rfl]
  rw [progressLogs_26 command image ls h26]
  rfl

/-- C7, witness: 26 empty-object lines. -/
theorem c7_witness :
    (List.replicate 26 emptyLine).length = 26
    ∧ (∀ l ∈ List.replicate 26 emptyLine, l.error.getD ([] : GoStr) = [])
    ∧ ((waitForScannerComplete (str "pull") (str "img")
          ((List.replicate 26 emptyLine).map ScanLine.ok) none).err = none
      ∧ (waitForScannerComplete (str "pull") (str "img")
            ((List.replicate 26 emptyLine).map ScanLine.ok) none).logs
          = [progressLine (str "pull") (str "img")
                (Status.GetMessage (List.foldl applyStatus zeroStatus
                  ((List.replicate 26 emptyLine).take 1))),
             progressLine (str "pull") (str "img")
                (Status.GetMessage (List.foldl applyStatus zeroStatus
                  (List.replicate 26 emptyLine))),
             completeLine (str "pull") (str "img")]) :=
  ⟨by decide, by decide,
    c7_progress_sampling (str "pull") (str "img") (List.replicate 26 emptyLine)
      (by decide) (by decide)⟩

/-- C1, counterexample: in `mergeStream` line 25 contains only the `id`
field; decoded into a fresh zero-valued `Status` its message would be
"Processing", but the log line emitted for it says "Started" — the
`Message` set by line 0 persists, because the `Status` struct is declared
outside the scan loop and `json.Unmarshal` leaves absent fields untouched. -/
theorem c1_counterexample :
    (waitForScannerComplete (str "pull") (str "img") mergeStream none).logs.getD 1 []
        = progressLine (str "pull") (str "img") (str "Started")
    ∧ Status.GetMessage (applyStatus zeroStatus ⟨none, some (str "abc"), none, none, none⟩)
        = str "Processing"
    ∧ progressLine (str "pull") (str "img") (str "Started")
        ≠ progressLine (str "pull") (str "img") (str "Processing") := by decide

/-- C1 (amended): the `Status` value used for a line is the fold of
`applyStatus` over all lines up to and including it, starting from the zero
value: a field absent from a line keeps the value set by the most recent
earlier line (the struct is reused across iterations), and a line with no
fields leaves the status unchanged.  The emitted progress logs are
characterised by `progressLogs`, which threads that folded status. -/
theorem c1_status_carryover (command image : GoStr) (ls : List JsonStatusLine)
    (se : Option GoStr) (herr : ∀ l ∈ ls, l.error.getD [] = []) :
    (waitForScannerComplete command image (ls.map ScanLine.ok) se).logs
        = progressLogs command image ls zeroStatus 0
          ++ (match se with | none => [completeLine command image] | some _ => [])
    ∧ ∀ (st : Status) (l : JsonStatusLine), l.status = none → l.id = none →
        l.pdCurrent = none → l.pdTotal = none → applyStatus st l = st := by
  constructor
  · rw [waitForScannerComplete, ← List.append_nil (ls.map ScanLine.ok),
      waitLoop_ok_append command image ls [] zeroStatus 0 [] se herr]
    cases se <;> simp [waitLoop]
  · intro st l h1 h2 h3 h4
    simp [applyStatus, h1, h2, h3, h4]

/-- C1, witness for the amended theorem at a one-line stream. -/
theorem c1_witness :
    (∀ l ∈ [emptyLine], l.error.getD ([] : GoStr) = [])
    ∧ ((waitForScannerComplete (str "pull") (str "img") ([emptyLine].map ScanLine.ok) none).logs
          = progressLogs (str "pull") (str "img") [emptyLine] zeroStatus 0
            ++ (match (none : Option GoStr) with
                | none => [completeLine (str "pull") (str "img")]
                | some _ => [])
      ∧ ∀ (st : Status) (l : JsonStatusLine), l.status = none → l.id = none →
          l.pdCurrent = none → l.pdTotal = none → applyStatus st l = st) :=
  ⟨by decide,
    c1_status_carryover (str "pull") (str "img") [emptyLine] none (by decide)⟩
